import Mathlib

/-!
Shallow embedding of the zero-shot text-classifier app (`src/app.py`).

Modelling conventions:
* Python strings are modelled as `List Char` at the algorithmic core, with
  thin `String` wrappers where convenient.  Python's `str.strip()` whitespace
  set is modelled by `Char.isWhitespace`.
* Python floats (classification scores) are modelled as exact rationals `ℚ`;
  the pipeline contract restricts scores to [0,1], so NaN never arises.
* Python's `sorted(..., key=lambda x: x[1], reverse=True)` is a stable sort by
  descending score.  A stable sort's output is extensionally determined by the
  key order together with the original positions, so we embed it as insertion
  sort with relation `fun a b => b.2 ≤ a.2` (Mathlib's `List.insertionSort`),
  which realises exactly that stable descending order.
* `out_labels, out_scores = zip(*pairs)` raises `ValueError` on an empty pair
  list; this fallible unpacking is modelled with `Option` (`none` = raise).
* The Streamlit button handler (lines 64-105) is modelled as a pure function
  of the inputs and of an abstract classifier `ClsRequest → Except String
  ClsResult`; `st.warning`/`st.stop`, `st.error`/`st.stop` and the final
  rendering are modelled as distinct `Outcome` values, and the number of
  classifier invocations is returned alongside the outcome.
-/

namespace ZeroShot

/-- A candidate label, as produced by the label parser. -/
abbrev Label := List Char

/-- A classification score (Python float, modelled exactly). -/
abbrev Score := ℚ

/-- `raw.replace("\n", ",")` from `parse_labels` (src/app.py line 37). -/
def normalizeSeps (l : List Char) : List Char :=
  l.map fun c => if c = '\n' then ',' else c

/-- Python's `s.split(",")`: one piece per comma-separated segment, empties
included; the empty string yields `[""]`. Embeds the `.split(",")` call in
`parse_labels` (src/app.py line 37). -/
def splitComma : List Char → List (List Char)
  | [] => [[]]
  | c :: cs =>
    if c = ',' then [] :: splitComma cs
    else
      match splitComma cs with
      | [] => [[c]]
      | p :: ps => (c :: p) :: ps

/-- Python's `p.strip()` (src/app.py line 37): drop whitespace from both
ends. -/
def trimChars (l : List Char) : List Char :=
  List.rdropWhile Char.isWhitespace (List.dropWhile Char.isWhitespace l)

/-- `parse_labels` (src/app.py lines 35-38) on the `List Char` model:
replace newlines by commas, split on commas, strip each piece, drop the
pieces that are empty after stripping. -/
def parseLabelsChars (raw : List Char) : List (List Char) :=
  ((splitComma (normalizeSeps raw)).map trimChars).filter fun p => p ≠ []

/-- `parse_labels` (src/app.py lines 35-38), `String`-typed interface. -/
def parse_labels (raw : String) : List String :=
  (parseLabelsChars raw.toList).map fun l => String.mk l

/-- Tabular result of `to_df` (src/app.py lines 40-41): a two-column data
frame `{"Etiqueta": labels, "Puntaje": scores}`. -/
structure DF where
  etiqueta : List Label
  puntaje : List Score
deriving DecidableEq

/-- `to_df` (src/app.py lines 40-41). -/
def to_df (labels : List Label) (scores : List Score) : DF :=
  ⟨labels, scores⟩

/-- The key order used by `sorted(..., key=lambda x: x[1], reverse=True)`
(src/app.py line 94): `a` may come before `b` iff `a`'s score is at least
`b`'s. -/
def scoreRel (a b : Label × Score) : Prop := b.2 ≤ a.2

instance : DecidableRel scoreRel := fun a b => inferInstanceAs (Decidable (b.2 ≤ a.2))

instance : IsTotal (Label × Score) scoreRel := ⟨fun a b => le_total b.2 a.2⟩

instance : IsTrans (Label × Score) scoreRel := ⟨fun _ _ _ h1 h2 => le_trans h2 h1⟩

/-- `sorted(zip(out_labels, out_scores), key=lambda x: x[1], reverse=True)`
(src/app.py line 94): stable sort of the pairs by descending score. -/
def sortPairsDesc (pairs : List (Label × Score)) : List (Label × Score) :=
  List.insertionSort scoreRel pairs

/-- `out_labels, out_scores = zip(*pairs)` (src/app.py line 95): fails
(`ValueError`) on the empty list, otherwise unzips. -/
def unzipStar (pairs : List (Label × Score)) : Option (List Label × List Score) :=
  match pairs with
  | [] => none
  | _ :: _ => some pairs.unzip

/-- The result-shaping step (src/app.py lines 91-97): when `sort_desc` is
true, re-sort the pairs by descending score and unpack; otherwise keep the
client's order.  `none` models the uncaught `ValueError` of `zip(*[])`. -/
def shape (labels : List Label) (scores : List Score) (sort_desc : Bool) :
    Option DF :=
  if sort_desc then
    match unzipStar (sortPairsDesc (labels.zip scores)) with
    | none => none
    | some (ls, ss) => some (to_df ls ss)
  else some (to_df labels scores)

/-- The request handed to the zero-shot pipeline (src/app.py lines 76-81). -/
structure ClsRequest where
  sequences : List Char
  candidate_labels : List Label
  multi_label : Bool
  hypothesis_template : String
deriving DecidableEq

/-- The pipeline's positionally aligned result (src/app.py lines 87-88). -/
structure ClsResult where
  labels : List Label
  scores : List Score
deriving DecidableEq

/-- Observable outcome of one click of the Clasificar button. -/
inductive Outcome where
  /-- `st.warning("Por favor ingresa un texto."); st.stop()` (lines 67-69). -/
  | warnEmptyText : Outcome
  /-- `st.warning("Por favor ingresa al menos una etiqueta."); st.stop()`
  (lines 70-72). -/
  | warnNoLabels : Outcome
  /-- `st.error(f"Ocurrió un error al clasificar: {e}"); st.stop()`
  (lines 82-84). -/
  | inferError (msg : String) : Outcome
  /-- The data frame rendered by `st.dataframe` (lines 97-100). -/
  | rendered (df : DF) : Outcome
  /-- An uncaught exception escaping the handler (the `zip(*pairs)`
  `ValueError`), crashing the script run. -/
  | crashed : Outcome
deriving DecidableEq

/-- The button handler (src/app.py lines 64-105) over an abstract classifier
`clf`.  Returns the outcome together with the number of times the inference
capability was invoked. -/
def run_classify (clf : ClsRequest → Except String ClsResult)
    (texto raw_labels : List Char) (multi_label : Bool)
    (hypothesis_template : String) (sort_desc : Bool) : Outcome × Nat :=
  let labels := parseLabelsChars raw_labels
  if trimChars texto = [] then (.warnEmptyText, 0)
  else if labels = [] then (.warnNoLabels, 0)
  else
    match clf ⟨texto, labels, multi_label, hypothesis_template⟩ with
    | .error e => (.inferError ("Ocurrió un error al clasificar: " ++ e), 1)
    | .ok result =>
      match shape result.labels result.scores sort_desc with
      | none => (.crashed, 1)
      | some df => (.rendered df, 1)

/-- Sidebar default for `multi_label` (src/app.py line 47). -/
def multi_label_default : Bool := true

/-- Sidebar default for `hypothesis_template` (src/app.py lines 48-52). -/
def hypothesis_template_default : String := "Este texto trata sobre \x7b\x7d."

/-- Sidebar default for `sort_desc` (src/app.py line 53). -/
def sort_desc_default : Bool := true

/-! ### Helper lemmas about the label parser -/

theorem splitComma_ne_nil (l : List Char) : splitComma l ≠ [] := by
  cases l with
  | nil => simp [splitComma]
  | cons c cs =>
    rw [splitComma]
    split
    · simp
    · split <;> simp

theorem mem_splitComma_no_comma (l : List Char) :
    ∀ p ∈ splitComma l, ',' ∉ p := by
  induction l with
  | nil =>
    intro p hp
    simp [splitComma] at hp
    simp [hp]
  | cons c cs ih =>
    intro p hp
    rw [splitComma] at hp
    by_cases hc : c = ','
    · rw [if_pos hc] at hp
      rcases List.mem_cons.mp hp with h | h
      · simp [h]
      · exact ih p h
    · rw [if_neg hc] at hp
      cases hsc : splitComma cs with
      | nil => exact absurd hsc (splitComma_ne_nil cs)
      | cons q qs =>
        rw [hsc] at hp
        rcases List.mem_cons.mp hp with h | h
        · subst h
          intro hmem
          rcases List.mem_cons.mp hmem with h | h
          · exact hc h.symm
          · exact ih q (hsc ▸ List.mem_cons_self q qs) h
        · exact ih p (hsc ▸ List.mem_cons.mpr (Or.inr h))

theorem mem_splitComma_subset (l : List Char) :
    ∀ p ∈ splitComma l, ∀ c ∈ p, c ∈ l := by
  induction l with
  | nil =>
    intro p hp
    simp [splitComma] at hp
    simp [hp]
  | cons a cs ih =>
    intro p hp c hc
    rw [splitComma] at hp
    by_cases ha : a = ','
    · rw [if_pos ha] at hp
      rcases List.mem_cons.mp hp with h | h
      · subst h; simp at hc
      · exact List.mem_cons.mpr (Or.inr (ih p h c hc))
    · rw [if_neg ha] at hp
      cases hsc : splitComma cs with
      | nil => exact absurd hsc (splitComma_ne_nil cs)
      | cons q qs =>
        rw [hsc] at hp
        rcases List.mem_cons.mp hp with h | h
        · subst h
          rcases List.mem_cons.mp hc with h | h
          · exact List.mem_cons.mpr (Or.inl h)
          · exact List.mem_cons.mpr
              (Or.inr (ih q (hsc ▸ List.mem_cons_self q qs) c h))
        · exact List.mem_cons.mpr
            (Or.inr (ih p (hsc ▸ List.mem_cons.mpr (Or.inr h)) c hc))

theorem normalizeSeps_no_newline (l : List Char) : '\n' ∉ normalizeSeps l := by
  intro h
  obtain ⟨x, _, hfx⟩ := List.mem_map.mp h
  by_cases hx : x = '\n'
  · rw [if_pos hx] at hfx
    exact absurd hfx (by decide)
  · rw [if_neg hx] at hfx
    exact hx hfx

theorem normalizeSeps_eq_self (l : List Char) (h : '\n' ∉ l) :
    normalizeSeps l = l := by
  rw [normalizeSeps]
  conv_rhs => rw [← List.map_id l]
  refine List.map_congr_left fun c hc => ?_
  rw [if_neg, id]
  intro hch
  exact h (hch ▸ hc)

theorem normalizeSeps_append (l₁ l₂ : List Char) :
    normalizeSeps (l₁ ++ l₂) = normalizeSeps l₁ ++ normalizeSeps l₂ :=
  List.map_append _ l₁ l₂

theorem trimChars_subset (l : List Char) : ∀ c ∈ trimChars l, c ∈ l := by
  intro c hc
  have h1 : c ∈ List.dropWhile Char.isWhitespace l :=
    ( List.rdropWhile_prefix _ _).sublist.subset hc
  exact (List.dropWhile_suffix _).sublist.subset h1

theorem trimChars_head?_not_ws (l : List Char) {c : Char}
    (hc : (trimChars l).head? = some c) : c.isWhitespace = false := by
  obtain ⟨t, ht⟩ :=
    List.rdropWhile_prefix Char.isWhitespace (List.dropWhile Char.isWhitespace l)
  have hne : trimChars l ≠ [] := by
    intro h
    rw [trimChars] at h
    rw [trimChars, h] at hc
    simp at hc
  have ht' : trimChars l ++ t = List.dropWhile Char.isWhitespace l := ht
  have h2 : (List.dropWhile Char.isWhitespace l).head? = some c := by
    rw [← ht', List.head?_append_of_ne_nil _ hne]
    exact hc
  have h3 := List.head?_dropWhile_not Char.isWhitespace l
  rw [h2] at h3
  exact h3

theorem trimChars_getLast?_not_ws (l : List Char) {c : Char}
    (hc : (trimChars l).getLast? = some c) : c.isWhitespace = false := by
  have hne : trimChars l ≠ [] := by
    intro h
    rw [h] at hc
    simp at hc
  have h1 := List.rdropWhile_last_not
    (p := Char.isWhitespace) (l := List.dropWhile Char.isWhitespace l) hne
  rw [List.getLast?_eq_getLast _ hne] at hc
  have heq := Option.some.inj hc
  have h2 : ¬c.isWhitespace = true := by
    rw [← heq]
    exact h1
  exact Bool.eq_false_iff.mpr h2

theorem trimChars_eq_self (l : List Char)
    (h1 : ∀ c, l.head? = some c → c.isWhitespace = false)
    (h2 : ∀ c, l.getLast? = some c → c.isWhitespace = false) :
    trimChars l = l := by
  have hd : List.dropWhile Char.isWhitespace l = l := by
    rw [List.dropWhile_eq_self_iff]
    intro hl
    have hh : l.head? = some l[0] := by
      rw [List.head?_eq_getElem?, List.getElem?_eq_getElem hl]
    simp [h1 _ hh]
  rw [trimChars, hd, List.rdropWhile_eq_self_iff]
  intro hl
  have hg : l.getLast? = some (l.getLast hl) := List.getLast?_eq_getLast l hl
  simp [h2 _ hg]

theorem trimChars_idem (l : List Char) : trimChars (trimChars l) = trimChars l :=
  trimChars_eq_self _ (fun _ hc => trimChars_head?_not_ws l hc)
    (fun _ hc => trimChars_getLast?_not_ws l hc)

/-- Every element of `parseLabelsChars raw` is non-empty, already trimmed,
and free of commas and newlines. -/
theorem parseLabelsChars_mem_spec (raw : List Char) :
    ∀ p ∈ parseLabelsChars raw,
      p ≠ [] ∧ trimChars p = p ∧ ',' ∉ p ∧ '\n' ∉ p := by
  intro p hp
  rw [parseLabelsChars] at hp
  have hmem := List.mem_of_mem_filter hp
  have hne : p ≠ [] := by
    have := List.of_mem_filter hp
    simpa using this
  obtain ⟨q, hq, hqp⟩ := List.mem_map.mp hmem
  subst hqp
  refine ⟨hne, trimChars_idem q, ?_, ?_⟩
  · intro hcomma
    exact mem_splitComma_no_comma _ q hq (trimChars_subset q ',' hcomma)
  · intro hnl
    exact normalizeSeps_no_newline raw
      (mem_splitComma_subset _ q hq '\n' (trimChars_subset q '\n' hnl))

theorem splitComma_append_of_no_comma (p : List Char) (rest r : List Char)
    (rs : List (List Char)) (hp : ',' ∉ p) (hrest : splitComma rest = r :: rs) :
    splitComma (p ++ rest) = (p ++ r) :: rs := by
  induction p with
  | nil => simpa using hrest
  | cons c p' ih =>
    have hc : c ≠ ',' := fun h => hp (h ▸ List.mem_cons_self c p')
    have hp' : ',' ∉ p' := fun h => hp (List.mem_cons.mpr (Or.inr h))
    rw [List.cons_append, splitComma, if_neg hc, ih hp']
    rfl

theorem splitComma_comma_cons (rest : List Char) :
    splitComma (',' :: rest) = [] :: splitComma rest := by
  rw [splitComma, if_pos rfl]

/-- Reparsing the comma-join of any list of non-empty, trimmed,
separator-free labels recovers the list exactly. -/
theorem parseLabelsChars_intercalate (ps : List (List Char))
    (h : ∀ p ∈ ps, p ≠ [] ∧ trimChars p = p ∧ ',' ∉ p ∧ '\n' ∉ p) :
    parseLabelsChars (List.intercalate [','] ps) = ps := by
  induction ps with
  | nil => rfl
  | cons p ps' ih =>
    obtain ⟨hne, htrim, hcomma, hnl⟩ := h p (List.mem_cons_self p ps')
    cases ps' with
    | nil =>
      rw [List.intercalate, List.intersperse_single, List.flatten_cons,
        List.flatten_nil, List.append_nil]
      rw [parseLabelsChars, normalizeSeps_eq_self p hnl]
      have h1 : splitComma (p ++ []) = (p ++ []) :: [] :=
        splitComma_append_of_no_comma p [] [] [] hcomma rfl
      rw [List.append_nil] at h1
      rw [h1, List.map_cons, List.map_nil, htrim, List.filter_cons_of_pos, List.filter_nil]
      simp [hne]
    | cons q qs =>
      have hIH := ih fun x hx => h x (List.mem_cons.mpr (Or.inr hx))
      have hinter : List.intercalate [','] (p :: q :: qs)
          = p ++ ',' :: List.intercalate [','] (q :: qs) := by
        rw [List.intercalate, List.intercalate, List.intersperse_cons₂,
          List.flatten_cons, List.flatten_cons]
        rfl
      rw [hinter, parseLabelsChars, normalizeSeps_append, normalizeSeps_eq_self p hnl]
      have hsep : normalizeSeps (',' :: List.intercalate [','] (q :: qs))
          = ',' :: normalizeSeps (List.intercalate [','] (q :: qs)) := by
        rw [normalizeSeps, List.map_cons]
        rfl
      rw [hsep]
      cases hrec : splitComma (normalizeSeps (List.intercalate [','] (q :: qs))) with
      | nil => exact absurd hrec (splitComma_ne_nil _)
      | cons r rs =>
        have h2 : splitComma (p ++ ',' :: normalizeSeps (List.intercalate [','] (q :: qs)))
            = (p ++ []) :: r :: rs := by
          refine splitComma_append_of_no_comma p _ [] (r :: rs) hcomma ?_
          rw [splitComma_comma_cons, hrec]
        rw [List.append_nil] at h2
        rw [h2, List.map_cons, htrim, List.filter_cons_of_pos]
        · have h3 : ((splitComma (normalizeSeps (List.intercalate [','] (q :: qs)))).map
              trimChars).filter (fun x => decide (x ≠ [])) = q :: qs := hIH
          rw [hrec] at h3
          rw [h3]
        · simp [hne]

/-! ### Helper lemmas about the stable descending sort -/

theorem orderedInsert_filter_score (x : Label × Score) (s : Score) :
    ∀ l : List (Label × Score),
      (List.orderedInsert scoreRel x l).filter (fun q => q.2 = s)
        = if x.2 = s then x :: l.filter (fun q => q.2 = s)
          else l.filter (fun q => q.2 = s)
  | [] => by
    by_cases hx : x.2 = s <;> simp [List.orderedInsert, hx]
  | y :: ys => by
    rw [List.orderedInsert]
    by_cases hxy : scoreRel x y
    · rw [if_pos hxy]
      by_cases hx : x.2 = s <;> by_cases hy : y.2 = s <;>
        simp [List.filter_cons, hx, hy]
    · rw [if_neg hxy]
      have hlt : x.2 < y.2 := not_le.mp hxy
      have ih := orderedInsert_filter_score x s ys
      by_cases hx : x.2 = s
      · have hy : y.2 ≠ s := fun h => (ne_of_lt hlt) (hx.trans h.symm)
        simp [List.filter_cons, hy, ih, hx]
      · simp [List.filter_cons, ih, hx]

/-- Stability of the descending sort: the sublist of pairs carrying any
fixed score is unchanged by the sort. -/
theorem sortPairsDesc_filter_score (s : Score) :
    ∀ l : List (Label × Score),
      (sortPairsDesc l).filter (fun q => q.2 = s) = l.filter (fun q => q.2 = s)
  | [] => rfl
  | x :: xs => by
    have ih : (List.insertionSort scoreRel xs).filter (fun q => q.2 = s)
        = xs.filter (fun q => q.2 = s) := sortPairsDesc_filter_score s xs
    show (List.orderedInsert scoreRel x (List.insertionSort scoreRel xs)).filter
        (fun q => q.2 = s) = (x :: xs).filter (fun q => q.2 = s)
    rw [orderedInsert_filter_score]
    by_cases hx : x.2 = s
    · rw [if_pos hx, ih, List.filter_cons, if_pos (by simp [hx])]
    · rw [if_neg hx, ih, List.filter_cons, if_neg (by simp [hx])]

theorem sortPairsDesc_perm (l : List (Label × Score)) :
    List.Perm (sortPairsDesc l) l :=
  List.perm_insertionSort scoreRel l

theorem sortPairsDesc_sorted (l : List (Label × Score)) :
    List.Sorted scoreRel (sortPairsDesc l) :=
  List.sorted_insertionSort scoreRel l

/-! ### Helper lemmas about shaping -/

theorem unzipStar_of_ne_nil (pairs : List (Label × Score)) (h : pairs ≠ []) :
    ∃ ls ss, unzipStar pairs = some (ls, ss) ∧ ls.zip ss = pairs ∧
      ls = pairs.map Prod.fst ∧ ss = pairs.map Prod.snd := by
  obtain ⟨x, xs, hx⟩ := List.exists_cons_of_ne_nil h
  subst hx
  cases huz : (x :: xs).unzip with
  | mk ls ss =>
    refine ⟨ls, ss, ?_, ?_, ?_, ?_⟩
    · show some (x :: xs).unzip = some (ls, ss)
      rw [huz]
    · have hz := List.zip_unzip (x :: xs)
      rw [huz] at hz
      exact hz
    · have hf := List.unzip_fst (l := x :: xs)
      rw [huz] at hf
      exact hf
    · have hs := List.unzip_snd (l := x :: xs)
      rw [huz] at hs
      exact hs

theorem shape_true_eq (labels : List Label) (scores : List Score)
    (ls : List Label) (ss : List Score)
    (h : unzipStar (sortPairsDesc (labels.zip scores)) = some (ls, ss)) :
    shape labels scores true = some (to_df ls ss) := by
  rw [shape, if_pos rfl, h]

theorem sortPairsDesc_zip_ne_nil (labels : List Label) (scores : List Score)
    (hne : labels ≠ []) (hlen : labels.length = scores.length) :
    sortPairsDesc (labels.zip scores) ≠ [] := by
  intro h
  have hl0 := (sortPairsDesc_perm (labels.zip scores)).length_eq
  rw [h] at hl0
  rw [List.length_zip, ← hlen, min_self] at hl0
  simp only [List.length_nil] at hl0
  exact absurd (List.length_pos.mpr hne) (by omega)

/-! ### The claims -/

/-- C1: with `sort_desc = true`, the shaped output is the stable descending
sort of the positionally aligned (label, score) pairs: shaping succeeds, the
output score column is non-increasing, pairs with equal scores keep their
original relative order (the per-score filtrations are unchanged), and the
output pairs are a permutation of the input pairs. -/
theorem shape_sort_desc_correct (labels : List Label) (scores : List Score)
    (hne : labels ≠ []) (hlen : labels.length = scores.length) :
    ∃ df : DF, shape labels scores true = some df ∧
      List.Perm (df.etiqueta.zip df.puntaje) (labels.zip scores) ∧
      df.puntaje.Pairwise (fun a b : Score => b ≤ a) ∧
      ∀ s : Score, (df.etiqueta.zip df.puntaje).filter (fun q => q.2 = s)
        = (labels.zip scores).filter (fun q => q.2 = s) := by
  have hsne := sortPairsDesc_zip_ne_nil labels scores hne hlen
  obtain ⟨ls, ss, hu, hzip, _, hsnd⟩ :=
    unzipStar_of_ne_nil (sortPairsDesc (labels.zip scores)) hsne
  refine ⟨to_df ls ss, shape_true_eq labels scores ls ss hu, ?_, ?_, ?_⟩
  · show List.Perm (ls.zip ss) (labels.zip scores)
    rw [hzip]
    exact sortPairsDesc_perm _
  · show ss.Pairwise (fun a b : Score => b ≤ a)
    rw [hsnd, List.pairwise_map]
    exact sortPairsDesc_sorted (labels.zip scores)
  · intro s
    show (ls.zip ss).filter (fun q => q.2 = s) = _
    rw [hzip]
    exact sortPairsDesc_filter_score s _

/-- Witness for C1 at a concrete input. -/
theorem shape_sort_desc_correct_witness :
    ([['a'], ['b']] : List Label) ≠ [] ∧
    ([['a'], ['b']] : List Label).length = ([(1 : ℚ), 2] : List Score).length ∧
    ∃ df : DF, shape [['a'], ['b']] [(1 : ℚ), 2] true = some df ∧
      List.Perm (df.etiqueta.zip df.puntaje) ([['a'], ['b']].zip [(1 : ℚ), 2]) ∧
      df.puntaje.Pairwise (fun a b : Score => b ≤ a) ∧
      ∀ s : Score, (df.etiqueta.zip df.puntaje).filter (fun q => q.2 = s)
        = ([['a'], ['b']].zip [(1 : ℚ), 2]).filter (fun q => q.2 = s) :=
  ⟨by decide, by decide,
    shape_sort_desc_correct [['a'], ['b']] [(1 : ℚ), 2] (by decide) (by decide)⟩

/-- C2: when the sequence text is empty or whitespace-only, or the parsed
label list is empty, the handler stops with a warning (`ValidationError`) and
the inference capability is invoked zero times. -/
theorem validation_blocks_inference (clf : ClsRequest → Except String ClsResult)
    (texto raw_labels : List Char) (ml : Bool) (ht : String) (sd : Bool)
    (h : trimChars texto = [] ∨ parseLabelsChars raw_labels = []) :
    (run_classify clf texto raw_labels ml ht sd).2 = 0 ∧
    ((run_classify clf texto raw_labels ml ht sd).1 = Outcome.warnEmptyText ∨
     (run_classify clf texto raw_labels ml ht sd).1 = Outcome.warnNoLabels) := by
  rcases h with h | h
  · simp [run_classify, h]
  · by_cases h2 : trimChars texto = [] <;> simp [run_classify, h, h2]

/-- Witness for C2 at a concrete input. -/
theorem validation_blocks_inference_witness :
    (trimChars "   ".toList = [] ∨ parseLabelsChars "a".toList = []) ∧
    ((run_classify (fun _ => Except.error "e") "   ".toList "a".toList
        true "t" true).2 = 0 ∧
     ((run_classify (fun _ => Except.error "e") "   ".toList "a".toList
        true "t" true).1 = Outcome.warnEmptyText ∨
      (run_classify (fun _ => Except.error "e") "   ".toList "a".toList
        true "t" true).1 = Outcome.warnNoLabels)) :=
  ⟨by decide,
   validation_blocks_inference (fun _ => Except.error "e") "   ".toList
     "a".toList true "t" true (by decide)⟩

/-- C3: any error from the model invocation is caught at the call site and
converted into the user-visible message containing the underlying cause's
description; no data frame is rendered and the handler does not crash. -/
theorem inference_error_caught (clf : ClsRequest → Except String ClsResult)
    (texto raw_labels : List Char) (ml : Bool) (ht : String) (sd : Bool)
    (e : String) (hT : trimChars texto ≠ []) (hL : parseLabelsChars raw_labels ≠ [])
    (hclf : clf ⟨texto, parseLabelsChars raw_labels, ml, ht⟩ = Except.error e) :
    run_classify clf texto raw_labels ml ht sd
      = (Outcome.inferError ("Ocurrió un error al clasificar: " ++ e), 1) ∧
    (∀ df : DF, (run_classify clf texto raw_labels ml ht sd).1
      ≠ Outcome.rendered df) ∧
    (run_classify clf texto raw_labels ml ht sd).1 ≠ Outcome.crashed := by
  have h1 : run_classify clf texto raw_labels ml ht sd
      = (Outcome.inferError ("Ocurrió un error al clasificar: " ++ e), 1) := by
    simp [run_classify, hT, hL, hclf]
  refine ⟨h1, fun df => ?_, ?_⟩
  · rw [h1]
    simp
  · rw [h1]
    simp

/-- Witness for C3 at a concrete input. -/
theorem inference_error_caught_witness :
    trimChars "x".toList ≠ [] ∧ parseLabelsChars "a".toList ≠ [] ∧
    (run_classify (fun _ => Except.error "boom") "x".toList "a".toList
        true "t" true
      = (Outcome.inferError ("Ocurrió un error al clasificar: " ++ "boom"), 1) ∧
    (∀ df : DF, (run_classify (fun _ => Except.error "boom") "x".toList
        "a".toList true "t" true).1 ≠ Outcome.rendered df) ∧
    (run_classify (fun _ => Except.error "boom") "x".toList "a".toList
        true "t" true).1 ≠ Outcome.crashed) :=
  ⟨by decide, by decide,
   inference_error_caught (fun _ => Except.error "boom") "x".toList "a".toList
     true "t" true "boom" (by decide) (by decide) rfl⟩

/-- C4: every label returned by `parse_labels` is a non-empty string whose
first and last characters are not whitespace (it is fully trimmed). -/
theorem parse_labels_elems_trimmed (raw : String) (s : String)
    (hs : s ∈ parse_labels raw) :
    s ≠ "" ∧ (∀ c, s.toList.head? = some c → c.isWhitespace = false) ∧
    (∀ c, s.toList.getLast? = some c → c.isWhitespace = false) := by
  rw [parse_labels] at hs
  obtain ⟨l, hl, hsl⟩ := List.mem_map.mp hs
  obtain ⟨hne, htrim, -, -⟩ := parseLabelsChars_mem_spec raw.toList l hl
  subst hsl
  have hToList : (String.mk l).toList = l := rfl
  refine ⟨?_, ?_, ?_⟩
  · intro h
    apply hne
    have hdata := congrArg String.data h
    simpa using hdata
  · intro c hc
    rw [hToList, ← htrim] at hc
    exact trimChars_head?_not_ws l hc
  · intro c hc
    rw [hToList, ← htrim] at hc
    exact trimChars_getLast?_not_ws l hc

/-- Witness for C4 at a concrete input. -/
theorem parse_labels_elems_trimmed_witness :
    "a" ∈ parse_labels "a, b" ∧
    ("a" ≠ "" ∧
     (∀ c, "a".toList.head? = some c → c.isWhitespace = false) ∧
     (∀ c, "a".toList.getLast? = some c → c.isWhitespace = false)) :=
  ⟨by decide, parse_labels_elems_trimmed "a, b" "a" (by decide)⟩

/-- C5: the two concrete examples of the spec:
`parse_labels "a, b\nc,, d "` is exactly `["a", "b", "c", "d"]`, and
`parse_labels ""` is empty. -/
theorem parse_labels_examples :
    parse_labels "a, b\nc,, d " = ["a", "b", "c", "d"] ∧ parse_labels "" = [] :=
  ⟨by decide, by decide⟩

/-- C6: `parse_labels` keeps the non-empty trimmed pieces in input order (it
is a sublist of the full trimmed-piece list) and does not deduplicate: every
non-empty label occurs in the output exactly as often as among the trimmed
pieces. -/
theorem parse_labels_no_dedup (raw : List Char) :
    List.Sublist (parseLabelsChars raw)
      ((splitComma (normalizeSeps raw)).map trimChars) ∧
    ∀ l : List Char, l ≠ [] →
      (parseLabelsChars raw).count l
        = (((splitComma (normalizeSeps raw)).map trimChars)).count l := by
  constructor
  · exact List.filter_sublist _
  · intro l hl
    exact List.count_filter (by simpa using hl)

/-- Witness for C6 at a concrete input with a duplicated label. -/
theorem parse_labels_no_dedup_witness :
    List.Sublist (parseLabelsChars "a,b,a".toList)
      ((splitComma (normalizeSeps "a,b,a".toList)).map trimChars) ∧
    (parseLabelsChars "a,b,a".toList).count ['a']
      = (((splitComma (normalizeSeps "a,b,a".toList)).map trimChars)).count ['a'] :=
  ⟨(parse_labels_no_dedup "a,b,a".toList).1,
   (parse_labels_no_dedup "a,b,a".toList).2 ['a'] (by decide)⟩

/-- C7: with `sort_desc = false`, shaping is the identity on the pair order:
it succeeds, row `i` of the output equals input pair `i`, and the row count
equals the number of input pairs. -/
theorem shape_no_sort_identity (labels : List Label) (scores : List Score)
    (hlen : labels.length = scores.length) :
    shape labels scores false = some (to_df labels scores) ∧
    (∀ i : ℕ, ((to_df labels scores).etiqueta.zip (to_df labels scores).puntaje)[i]?
      = (labels.zip scores)[i]?) ∧
    ((to_df labels scores).etiqueta.zip (to_df labels scores).puntaje).length
      = labels.length := by
  refine ⟨rfl, fun i => rfl, ?_⟩
  show (labels.zip scores).length = labels.length
  rw [List.length_zip, ← hlen, min_self]

/-- Witness for C7 at a concrete input. -/
theorem shape_no_sort_identity_witness :
    ([['a'], ['b']] : List Label).length = ([(1 : ℚ), 2] : List Score).length ∧
    (shape [['a'], ['b']] [(1 : ℚ), 2] false
        = some (to_df [['a'], ['b']] [(1 : ℚ), 2]) ∧
     (∀ i : ℕ, ((to_df [['a'], ['b']] [(1 : ℚ), 2]).etiqueta.zip
        (to_df [['a'], ['b']] [(1 : ℚ), 2]).puntaje)[i]?
        = ([['a'], ['b']].zip [(1 : ℚ), 2])[i]?) ∧
     ((to_df [['a'], ['b']] [(1 : ℚ), 2]).etiqueta.zip
        (to_df [['a'], ['b']] [(1 : ℚ), 2]).puntaje).length
        = ([['a'], ['b']] : List Label).length) :=
  ⟨by decide, shape_no_sort_identity [['a'], ['b']] [(1 : ℚ), 2] (by decide)⟩

/-- C8, counterexample: the claim's stated defaults are false on the code —
the default hypothesis template is the Spanish "Este texto trata sobre
\x7b\x7d.", not the English "This text is about \x7b\x7d.". -/
theorem defaults_claim_false :
    ¬ (multi_label_default = true ∧ sort_desc_default = true ∧
       hypothesis_template_default = "This text is about \x7b\x7d.") := by
  intro h
  exact absurd h.2.2 (by decide)

/-- C8, amended: `multi_label` and `sort_desc` default to true, and the
hypothesis template defaults to "Este texto trata sobre \x7b\x7d.". -/
theorem defaults_spec :
    multi_label_default = true ∧ sort_desc_default = true ∧
    hypothesis_template_default = "Este texto trata sobre \x7b\x7d." :=
  ⟨rfl, rfl, rfl⟩

/-- C9: no parsed label contains a comma or a newline, and joining the
parsed labels with commas and reparsing yields the same label sequence. -/
theorem parse_labels_no_separators_roundtrip (raw : List Char) :
    (∀ p ∈ parseLabelsChars raw, ',' ∉ p ∧ '\n' ∉ p) ∧
    parseLabelsChars (List.intercalate [','] (parseLabelsChars raw))
      = parseLabelsChars raw := by
  constructor
  · intro p hp
    obtain ⟨-, -, h1, h2⟩ := parseLabelsChars_mem_spec raw p hp
    exact ⟨h1, h2⟩
  · exact parseLabelsChars_intercalate _ (parseLabelsChars_mem_spec raw)

/-- Witness for C9 at a concrete input. -/
theorem parse_labels_no_separators_roundtrip_witness :
    (',' ∉ (['a'] : List Char) ∧ '\n' ∉ (['a'] : List Char)) ∧
    parseLabelsChars (List.intercalate [','] (parseLabelsChars "a, b".toList))
      = parseLabelsChars "a, b".toList :=
  ⟨(parse_labels_no_separators_roundtrip "a, b".toList).1 ['a'] (by decide),
   (parse_labels_no_separators_roundtrip "a, b".toList).2⟩

/-- C10: unpacking `zip(*pairs)` fails exactly on the empty pair list
(`unzipStar [] = none`), but in the handler flow — where the validation
guard ensures a non-empty label list and the classifier returns one score
per candidate label — the crashing case is unreachable. -/
theorem zip_unpack_unreachable :
    unzipStar ([] : List (Label × Score)) = none ∧
    ∀ (clf : ClsRequest → Except String ClsResult) (texto raw_labels : List Char)
      (ml : Bool) (ht : String) (sd : Bool),
      (∀ res : ClsResult,
        clf ⟨texto, parseLabelsChars raw_labels, ml, ht⟩ = Except.ok res →
        res.labels.length = (parseLabelsChars raw_labels).length ∧
        res.scores.length = res.labels.length) →
      (run_classify clf texto raw_labels ml ht sd).1 ≠ Outcome.crashed := by
  refine ⟨rfl, ?_⟩
  intro clf texto raw_labels ml ht sd hres
  by_cases hT : trimChars texto = []
  · simp [run_classify, hT]
  by_cases hL : parseLabelsChars raw_labels = []
  · simp [run_classify, hT, hL]
  cases hc : clf ⟨texto, parseLabelsChars raw_labels, ml, ht⟩ with
  | error e => simp [run_classify, hT, hL, hc]
  | ok res =>
    obtain ⟨hlen1, hlen2⟩ := hres res hc
    have hrne : res.labels ≠ [] := by
      intro h
      rw [h] at hlen1
      exact hL (List.length_eq_zero.mp hlen1.symm)
    have hshape : ∃ df, shape res.labels res.scores sd = some df := by
      cases sd with
      | false => exact ⟨to_df res.labels res.scores, rfl⟩
      | true =>
        have hsne := sortPairsDesc_zip_ne_nil res.labels res.scores hrne hlen2.symm
        obtain ⟨ls, ss, hu, -, -, -⟩ :=
          unzipStar_of_ne_nil (sortPairsDesc (res.labels.zip res.scores)) hsne
        exact ⟨to_df ls ss, shape_true_eq res.labels res.scores ls ss hu⟩
    obtain ⟨df, hdf⟩ := hshape
    simp [run_classify, hT, hL, hc, hdf]

/-- Witness for C10 at a concrete classifier satisfying the contract. -/
theorem zip_unpack_unreachable_witness :
    (run_classify (fun _ => Except.ok ⟨[['a']], [(1 : ℚ)]⟩) "x".toList
      "a".toList true "t" true).1 ≠ Outcome.crashed :=
  zip_unpack_unreachable.2 (fun _ => Except.ok ⟨[['a']], [(1 : ℚ)]⟩)
    "x".toList "a".toList true "t" true
    (fun res hres => by
      injection hres with h
      subst h
      exact ⟨by decide, by decide⟩)

end ZeroShot
